import Mathlib

/-!
Shallow embedding of the `MakerJs.angle` module (src/core/angle.ts) of the
maker.js 2D drawing library, together with proofs of the specified
properties of its angle arithmetic.

JavaScript numbers are modelled as real numbers; where a function is free
of π we keep it generic over a linear ordered field with a floor, so it
stays computable (for instance over ℚ).  The two collaborators that the
excerpt consumes but does not define (`round` from maker.ts and
`point.subtract`) are modelled from the spec and marked as such.
-/

namespace MakerJs

/-- A 2D point, the `Point {x, y}` data shape consumed by the angle library
(source `IPoint`, a two-element coordinate array). -/
structure IPoint (α : Type*) where
  x : α
  y : α
deriving DecidableEq, Repr

/-- A line path: an origin point and an end point (source `IPathLine`). -/
structure IPathLine (α : Type*) where
  origin : IPoint α
  endP : IPoint α
deriving DecidableEq, Repr

/-- An arc path (source `IPathArc`): center and radius (caller-owned,
passed through untouched) plus start and end angles in degrees. -/
structure IPathArc (α : Type*) where
  origin : IPoint α
  radius : α
  startAngle : α
  endAngle : α
deriving DecidableEq, Repr

namespace point

/-- Modelled from the spec: the external point-subtraction collaborator
`point.subtract` (its source is outside the excerpt) is component-wise
subtraction `a − b`. -/
def subtract {α : Type*} [Sub α] (a b : IPoint α) : IPoint α :=
  ⟨a.x - b.x, a.y - b.y⟩

end point

namespace angle

variable {α : Type*} [LinearOrderedField α] [FloorRing α]

/-- Modelled from the spec: the external rounding collaborator `round`
(defined in maker.ts, outside the excerpt) snaps a value to a fixed
decimal precision; the spec leaves the precision unspecified, so the
number of decimal places `d` is a parameter here.  Rounding half up
matches the JavaScript `Math.round` it is built on. -/
def round (d : ℕ) (n : α) : α :=
  ((⌊n * 10 ^ d + 1 / 2⌋ : ℤ) : α) / 10 ^ d

/-- Source `noRevolutions`: subtract 360 times the floored number of
whole revolutions. -/
def noRevolutions (angleInDegrees : α) : α :=
  let revolutions := ⌊angleInDegrees / 360⌋
  angleInDegrees - 360 * (revolutions : α)

/-- Source `areEqual`: round both angles, strip whole revolutions, and
compare exactly, also across the 0/360 boundary.  The boolean result of
the source is rendered as a proposition. -/
def areEqual (d : ℕ) (angle1 angle2 : α) : Prop :=
  let a1 := noRevolutions (round d angle1)
  let a2 := noRevolutions (round d angle2)
  a1 = a2 ∨ a1 + 360 = a2 ∨ a1 - 360 = a2

/-- Source `toRadians`: strip whole revolutions, then scale by π/180. -/
noncomputable def toRadians (angleInDegrees : ℝ) : ℝ :=
  noRevolutions angleInDegrees * Real.pi / 180

/-- Source `toDegrees`: scale by 180/π, with no normalization. -/
noncomputable def toDegrees (angleInRadians : ℝ) : ℝ :=
  angleInRadians * 180 / Real.pi

/-- Source `ofArcEnd`: the arc's end angle, compensated by a revolution
when it is numerically below the start angle. -/
def ofArcEnd (arc : IPathArc α) : α :=
  if arc.endAngle < arc.startAngle then 360 + arc.endAngle else arc.endAngle

/-- The real value of the JavaScript expression `Math.atan2(-y, -x)` as it
occurs in `ofPointInRadians`.  When y = 0 the JavaScript negation of the
IEEE difference +0 yields the float -0, and `Math.atan2(-0, t)` is -π for
t ≤ -0 and -0 for t > 0; when y ≠ 0 the sign of a zero x is immaterial
and the value is the principal argument of the complex number
(-x) + (-y)i. -/
noncomputable def atan2NegNeg (y x : ℝ) : ℝ :=
  if y = 0 then (if x < 0 then 0 else -Real.pi)
  else Complex.arg ⟨-x, -y⟩

/-- Source `ofPointInRadians`: subtract the origin from the target point
and take `Math.atan2(-dy, -dx) + π`. -/
noncomputable def ofPointInRadians (origin pointToFindAngle : IPoint ℝ) : ℝ :=
  let d := point.subtract pointToFindAngle origin
  atan2NegNeg d.y d.x + Real.pi

/-- Source `ofPointInDegrees`: the point angle converted to degrees,
without normalization. -/
noncomputable def ofPointInDegrees (origin pointToFindAngle : IPoint ℝ) : ℝ :=
  toDegrees (ofPointInRadians origin pointToFindAngle)

/-- Source `ofLineInDegrees`: the angle of the line's direction, converted
to degrees and normalized. -/
noncomputable def ofLineInDegrees (line : IPathLine ℝ) : ℝ :=
  noRevolutions (toDegrees (ofPointInRadians line.origin line.endP))

/-- Source `mirror`: reflect an angle across the y axis and/or the x axis;
the y reflection is applied first, exactly as the source mutates its
argument. -/
def mirror (angleInDegrees : α) (mirrorX mirrorY : Bool) : α :=
  let a1 := if mirrorY then 360 - angleInDegrees else angleInDegrees
  if mirrorX then (if a1 < 180 then (180 : α) else 540) - a1 else a1

/-- A concrete arc used to exercise `ofArcEnd` (start 350°, end 10°). -/
def sampleArc : IPathArc ℝ :=
  ⟨⟨0, 0⟩, 1, 350, 10⟩

/-! ### Helper lemmas about `noRevolutions` and `round` -/

theorem noRevolutions_eq_fract (a : α) :
    noRevolutions a = 360 * Int.fract (a / 360) := by
  have h : (360 : α) ≠ 0 := by norm_num
  simp only [noRevolutions, Int.fract]
  field_simp

theorem noRevolutions_nonneg (a : α) : 0 ≤ noRevolutions a := by
  rw [noRevolutions_eq_fract]
  have := Int.fract_nonneg (a / 360)
  nlinarith

theorem noRevolutions_lt_360 (a : α) : noRevolutions a < 360 := by
  rw [noRevolutions_eq_fract]
  have := Int.fract_lt_one (a / 360)
  nlinarith

theorem noRevolutions_add_int (a : α) (k : ℤ) :
    noRevolutions (a + 360 * k) = noRevolutions a := by
  have h : (a + 360 * k) / 360 = a / 360 + k := by
    field_simp
    ring
  rw [noRevolutions_eq_fract, noRevolutions_eq_fract, h, Int.fract_add_int]

theorem noRevolutions_eq_self {a : α} (h0 : 0 ≤ a) (h1 : a < 360) :
    noRevolutions a = a := by
  have hfloor : ⌊a / 360⌋ = 0 := by
    rw [Int.floor_eq_zero_iff]
    constructor
    · positivity
    · rw [div_lt_one (by norm_num : (0:α) < 360)] at *
      simpa using h1
  simp [noRevolutions, hfloor]

theorem round_intCast (d : ℕ) (m : ℤ) : round d ((m : α)) = m := by
  have hpow : (10 : α) ^ d ≠ 0 := by positivity
  have hcast : (m : α) * 10 ^ d = ((m * 10 ^ d : ℤ) : α) := by push_cast; ring
  have hhalf : ⌊(1 / 2 : α)⌋ = 0 := by
    rw [Int.floor_eq_zero_iff]
    constructor <;> norm_num
  rw [round, hcast, Int.floor_int_add, hhalf, add_zero]
  push_cast
  field_simp

theorem round_add_360 (d : ℕ) (a : α) : round d (a + 360) = round d a + 360 := by
  have hpow : (10 : α) ^ d ≠ 0 := by positivity
  have hcast : (a + 360) * 10 ^ d + 1 / 2
      = (a * 10 ^ d + 1 / 2) + ((360 * 10 ^ d : ℤ) : α) := by push_cast; ring
  rw [round, round, hcast, Int.floor_add_int]
  push_cast
  field_simp

theorem noRevolutions_360 : noRevolutions (360 : α) = 0 := by
  have h := noRevolutions_add_int (0 : α) 1
  simp only [Int.cast_one, mul_one, zero_add] at h
  rw [h]
  simp [noRevolutions]

/-! ### Claim theorems -/

/-- Claim C3: `noRevolutions a` is `a - 360·⌊a/360⌋`, a single floor
division, and the result lies in [0, 360); in particular
`noRevolutions (-10) = 350` and `noRevolutions 360 = 0`. -/
theorem noRevolutions_spec :
    (∀ a : ℝ, noRevolutions a = a - 360 * ((⌊a / 360⌋ : ℤ) : ℝ) ∧
      0 ≤ noRevolutions a ∧ noRevolutions a < 360) ∧
    noRevolutions (-10 : ℝ) = 350 ∧ noRevolutions (360 : ℝ) = 0 := by
  refine ⟨fun a => ⟨rfl, noRevolutions_nonneg a, noRevolutions_lt_360 a⟩, ?_, ?_⟩
  · have hfloor : ⌊(-10 : ℝ) / 360⌋ = -1 := by
      rw [Int.floor_eq_iff]
      constructor <;> norm_num
    simp [noRevolutions, hfloor]
    norm_num
  · have hfloor : ⌊(360 : ℝ) / 360⌋ = 1 := by norm_num
    simp [noRevolutions, hfloor]

/-- Claim C9: `noRevolutions` is invariant under adding any whole number
of revolutions. -/
theorem noRevolutions_period_spec (a : ℝ) (k : ℤ) :
    noRevolutions (a + 360 * k) = noRevolutions a :=
  noRevolutions_add_int a k

/-- Claim C10: `noRevolutions` is idempotent: an already-normalized angle
is returned unchanged. -/
theorem noRevolutions_idempotent_spec (a : ℝ) :
    noRevolutions (noRevolutions a) = noRevolutions a :=
  noRevolutions_eq_self (noRevolutions_nonneg a) (noRevolutions_lt_360 a)

/-- Claim C1 fails as stated: for the arc with start angle 400 and end
angle 0, `ofArcEnd` returns 360, which is less than the raw start angle,
so the returned value minus the start angle is negative. -/
theorem ofArcEnd_sweep_counterexample :
    ¬ (0 ≤ ofArcEnd (⟨⟨0, 0⟩, 1, 400, 0⟩ : IPathArc ℝ)
        - (⟨⟨0, 0⟩, 1, 400, 0⟩ : IPathArc ℝ).startAngle) := by
  norm_num [ofArcEnd]

/-- Claim C1, amended: for every arc, `ofArcEnd` returns the end angle
when it is at least the start angle and the end angle plus 360 otherwise;
and whenever the start angle exceeds the end angle by at most one
revolution — in particular for arcs whose angles both lie in [0, 360) —
the returned value minus the raw start angle is non-negative. -/
theorem ofArcEnd_spec (arc : IPathArc ℝ) :
    (if arc.startAngle ≤ arc.endAngle then ofArcEnd arc = arc.endAngle
      else ofArcEnd arc = arc.endAngle + 360) ∧
    (arc.startAngle ≤ arc.endAngle + 360 → 0 ≤ ofArcEnd arc - arc.startAngle) := by
  constructor
  · by_cases hlt : arc.endAngle < arc.startAngle
    · rw [if_neg (not_le.mpr hlt)]
      simp [ofArcEnd, if_pos hlt]
      ring
    · rw [if_pos (not_lt.mp hlt)]
      simp [ofArcEnd, if_neg hlt]
  · intro h
    by_cases hlt : arc.endAngle < arc.startAngle
    · simp [ofArcEnd, if_pos hlt]
      linarith
    · simp [ofArcEnd, if_neg hlt]
      have hle := not_lt.mp hlt
      linarith

theorem ofArcEnd_spec_witness :
    sampleArc.startAngle ≤ sampleArc.endAngle + 360 ∧
    0 ≤ ofArcEnd sampleArc - sampleArc.startAngle :=
  ⟨by norm_num [sampleArc],
    (ofArcEnd_spec sampleArc).2 (by norm_num [sampleArc])⟩

/-- Claim C4: `mirror` applies the y-axis reflection (360 − a), then the
x-axis reflection ((a < 180 ? 180 : 540) − a), in that order, with the
boundary a = 180 resolving to the 540 − a branch; in particular
`mirror 30 false true = 330`, `mirror 30 true false = 150`, and
`mirror 200 true false = 340`. -/
theorem mirror_spec :
    (∀ (a : ℝ) (mx my : Bool),
      mirror a mx my =
        (if mx then
            (if (if my then 360 - a else a) < 180 then (180 : ℝ) else 540)
              - (if my then 360 - a else a)
          else (if my then 360 - a else a))) ∧
    mirror (180 : ℝ) true false = 360 ∧
    mirror (30 : ℝ) false true = 330 ∧
    mirror (30 : ℝ) true false = 150 ∧
    mirror (200 : ℝ) true false = 340 := by
  refine ⟨fun a mx my => rfl, ?_, ?_, ?_, ?_⟩ <;> norm_num [mirror]

/-- Claim C5: `areEqual` rounds both inputs, strips whole revolutions,
and holds exactly when the two reduced values agree up to ±360; hence any
angle equals itself plus a revolution, while 0 and 180 differ, at every
rounding precision d. -/
theorem areEqual_spec :
    (∀ (d : ℕ) (a b : ℝ), areEqual d a b ↔
      (noRevolutions (round d a) = noRevolutions (round d b) ∨
        noRevolutions (round d a) + 360 = noRevolutions (round d b) ∨
        noRevolutions (round d a) - 360 = noRevolutions (round d b))) ∧
    (∀ (d : ℕ) (a : ℝ), areEqual d a (a + 360)) ∧
    (∀ d : ℕ, ¬ areEqual d (0 : ℝ) 180) := by
  refine ⟨fun d a b => Iff.rfl, ?_, ?_⟩
  · intro d a
    have hround : round d (a + 360) = round d a + 360 := round_add_360 d a
    have hper : noRevolutions (round d a + 360) = noRevolutions (round d a) := by
      have h := noRevolutions_add_int (round d a) 1
      simpa using h
    left
    rw [hround, hper]
  · intro d h
    have h0 : round d (0 : ℝ) = 0 := by simpa using round_intCast (α := ℝ) d 0
    have h180 : round d (180 : ℝ) = 180 := by
      have := round_intCast (α := ℝ) d 180
      simpa using this
    have hn0 : noRevolutions ((0 : ℝ)) = 0 := by simp [noRevolutions]
    have hn180 : noRevolutions ((180 : ℝ)) = 180 :=
      noRevolutions_eq_self (by norm_num) (by norm_num)
    simp only [areEqual, h0, h180, hn0, hn180] at h
    norm_num at h

/-- Claim C6: `toRadians` normalizes before converting, so it equals
`noRevolutions a · π / 180` and always lands in [0, 2π); in particular
`toRadians 360 = 0` and `toRadians 180 = π`. -/
theorem toRadians_spec :
    (∀ a : ℝ, toRadians a = noRevolutions a * Real.pi / 180 ∧
      0 ≤ toRadians a ∧ toRadians a < 2 * Real.pi) ∧
    toRadians (360 : ℝ) = 0 ∧ toRadians (180 : ℝ) = Real.pi := by
  have hπ := Real.pi_pos
  refine ⟨fun a => ⟨rfl, ?_, ?_⟩, ?_, ?_⟩
  · exact div_nonneg (mul_nonneg (noRevolutions_nonneg a) hπ.le) (by norm_num)
  · have h1 := noRevolutions_lt_360 a
    have h0 := noRevolutions_nonneg a
    rw [toRadians]
    nlinarith
  · rw [toRadians, noRevolutions_360]
    ring
  · rw [toRadians, noRevolutions_eq_self (by norm_num) (by norm_num)]
    field_simp

/-- Claim C7: `toDegrees` is the bare scaling r · 180 / π with no
normalization, so `toDegrees (2π) = 360`, a value that normalization
would have sent to 0 — asymmetric with the degrees-to-radians path. -/
theorem toDegrees_spec :
    (∀ r : ℝ, toDegrees r = r * 180 / Real.pi) ∧
    toDegrees (2 * Real.pi) = 360 ∧
    toDegrees (2 * Real.pi) ≠ noRevolutions (toDegrees (2 * Real.pi)) := by
  have h2 : toDegrees (2 * Real.pi) = 360 := by
    rw [toDegrees]
    field_simp
    ring
  refine ⟨fun r => rfl, h2, ?_⟩
  rw [h2, noRevolutions_360]
  norm_num

theorem atan2NegNeg_add_pi_nonneg (y x : ℝ) :
    0 ≤ atan2NegNeg y x + Real.pi := by
  have hπ := Real.pi_pos
  rw [atan2NegNeg]
  by_cases hy : y = 0
  · rw [if_pos hy]
    by_cases hx : x < 0
    · rw [if_pos hx]; linarith
    · rw [if_neg hx]; linarith
  · rw [if_neg hy]
    have h1 : -Real.pi < Complex.arg ⟨-x, -y⟩ := Complex.neg_pi_lt_arg _
    linarith

theorem atan2NegNeg_add_pi_lt (y x : ℝ) :
    atan2NegNeg y x + Real.pi < 2 * Real.pi := by
  have hπ := Real.pi_pos
  rw [atan2NegNeg]
  by_cases hy : y = 0
  · rw [if_pos hy]
    by_cases hx : x < 0
    · rw [if_pos hx]; linarith
    · rw [if_neg hx]; linarith
  · rw [if_neg hy]
    have h2 : Complex.arg ⟨-x, -y⟩ ≤ Real.pi := Complex.arg_le_pi _
    have h3 : Complex.arg ⟨-x, -y⟩ ≠ Real.pi := by
      intro h
      have him : (⟨-x, -y⟩ : ℂ).im = 0 := (Complex.arg_eq_pi_iff.mp h).2
      simp only [Complex.neg_im] at him
      exact hy (by simpa using neg_eq_zero.mp him)
    have h4 : Complex.arg ⟨-x, -y⟩ < Real.pi := lt_of_le_of_ne h2 h3
    linarith

theorem ofPointInRadians_from_origin (x y : ℝ) :
    ofPointInRadians ⟨0, 0⟩ ⟨x, y⟩ = atan2NegNeg y x + Real.pi := by
  simp [ofPointInRadians, point.subtract]

theorem toDegrees_pi_mul (r : ℝ) : toDegrees (r * Real.pi) = r * 180 := by
  rw [toDegrees]
  field_simp
  ring

/-- Claim C2: `ofPointInRadians` is `Math.atan2` of the negated
coordinate differences, shifted by π, and the result always lies in
[0, 2π).  The zero-difference cases follow the IEEE signed-zero
behavior of the JavaScript negation at the call site, captured in
`atan2NegNeg`. -/
theorem ofPointInRadians_spec (origin target : IPoint ℝ) :
    ofPointInRadians origin target
      = atan2NegNeg (point.subtract target origin).y (point.subtract target origin).x
        + Real.pi ∧
    0 ≤ ofPointInRadians origin target ∧
    ofPointInRadians origin target < 2 * Real.pi := by
  refine ⟨rfl, ?_, ?_⟩
  · exact atan2NegNeg_add_pi_nonneg _ _
  · exact atan2NegNeg_add_pi_lt _ _

theorem ofPointInRadians_spec_witness :
    ofPointInRadians (⟨0, 0⟩ : IPoint ℝ) ⟨3, 4⟩
      = atan2NegNeg (point.subtract (⟨3, 4⟩ : IPoint ℝ) ⟨0, 0⟩).y
          (point.subtract (⟨3, 4⟩ : IPoint ℝ) ⟨0, 0⟩).x + Real.pi ∧
    0 ≤ ofPointInRadians (⟨0, 0⟩ : IPoint ℝ) ⟨3, 4⟩ ∧
    ofPointInRadians (⟨0, 0⟩ : IPoint ℝ) ⟨3, 4⟩ < 2 * Real.pi :=
  ofPointInRadians_spec ⟨0, 0⟩ ⟨3, 4⟩

/-- Claim C8: `ofLineInDegrees` normalizes the degree conversion of the
point angle, and on the four axis directions from the origin it yields
0, 90, 180 and 270 degrees. -/
theorem ofLineInDegrees_spec :
    (∀ line : IPathLine ℝ, ofLineInDegrees line
      = noRevolutions (toDegrees (ofPointInRadians line.origin line.endP))) ∧
    ofLineInDegrees ⟨⟨0, 0⟩, ⟨1, 0⟩⟩ = 0 ∧
    ofLineInDegrees ⟨⟨0, 0⟩, ⟨0, 1⟩⟩ = 90 ∧
    ofLineInDegrees ⟨⟨0, 0⟩, ⟨-1, 0⟩⟩ = 180 ∧
    ofLineInDegrees ⟨⟨0, 0⟩, ⟨0, -1⟩⟩ = 270 := by
  have hπ := Real.pi_ne_zero
  refine ⟨fun line => rfl, ?_, ?_, ?_, ?_⟩
  · have ha : atan2NegNeg (0 : ℝ) 1 = -Real.pi := by
      rw [atan2NegNeg]
      norm_num
    rw [ofLineInDegrees, ofPointInRadians_from_origin, ha]
    norm_num [toDegrees, noRevolutions]
  · have ha : atan2NegNeg (1 : ℝ) 0 = -(Real.pi / 2) := by
      rw [atan2NegNeg]
      rw [if_neg (by norm_num : (1 : ℝ) ≠ 0)]
      have hz : (⟨-(0 : ℝ), -(1 : ℝ)⟩ : ℂ) = -Complex.I := by
        apply Complex.ext <;> simp
      rw [hz, Complex.arg_neg_I]
    rw [ofLineInDegrees, ofPointInRadians_from_origin, ha]
    have hval : -(Real.pi / 2) + Real.pi = (1 / 2) * Real.pi := by ring
    rw [hval, toDegrees_pi_mul]
    rw [noRevolutions_eq_self (by norm_num) (by norm_num)]
    norm_num
  · have ha : atan2NegNeg (0 : ℝ) (-1) = 0 := by
      rw [atan2NegNeg]
      norm_num
    rw [ofLineInDegrees, ofPointInRadians_from_origin, ha]
    have hval : (0 : ℝ) + Real.pi = 1 * Real.pi := by ring
    rw [hval, toDegrees_pi_mul]
    rw [noRevolutions_eq_self (by norm_num) (by norm_num)]
    norm_num
  · have ha : atan2NegNeg (-1 : ℝ) 0 = Real.pi / 2 := by
      rw [atan2NegNeg]
      rw [if_neg (by norm_num : (-1 : ℝ) ≠ 0)]
      have hz : (⟨-(0 : ℝ), -(-1 : ℝ)⟩ : ℂ) = Complex.I := by
        apply Complex.ext <;> simp
      rw [hz, Complex.arg_I]
    rw [ofLineInDegrees, ofPointInRadians_from_origin, ha]
    have hval : Real.pi / 2 + Real.pi = (3 / 2) * Real.pi := by ring
    rw [hval, toDegrees_pi_mul]
    rw [noRevolutions_eq_self (by norm_num) (by norm_num)]
    norm_num

end angle

end MakerJs
